import Mathlib

/-!
Verification development for the KinectFilter repository.

The repository contains several example applications sharing two cores:
a GPU convolution pipeline (an OpenCL `convolution` kernel dispatched by
`Filter::convolve`, optionally preceded by two box-blur smoothing passes)
and a single-slot frame mailbox between the libfreenect capture callback
and the render loop (`MyFreenectDevice::VideoCallback` / `getRGB`).

This file gives a shallow embedding of those cores:
- a pixel-level model of the `convolution` OpenCL kernel (kernels.cl)
  over exact rationals (all float operations performed by the kernel on
  these inputs are exact in binary32, so the rational model is faithful);
- a trace-level model of the CL calls issued by `Filter::convolve`
  (which buffers are bound to which kernel arguments and in which order
  the passes are submitted to the in-order queue);
- a state-machine model of the mailbox;
- models of the `depthTo3D` and `normalizeRGB` kernels of the
  point-cloud variant and of the buffer aliasing in the GL-texture
  variant.
-/

/-- A device image: dimensions plus a pixel lookup (row, column).
Pixel values are the unsigned 8-bit samples stored in the `CL_R` /
`CL_UNSIGNED_INT8` images created by `Filter::Filter`. -/
structure Image where
  rows : Nat
  cols : Nat
  px : Nat → Nat → Nat

/-- `CL_ADDRESS_CLAMP_TO_EDGE` behaviour of the sampler created by
`clCreateSampler`: an out-of-range coordinate is clamped to the nearest
edge coordinate `[0, size - 1]`. -/
def clampIdx (size : Nat) (i : Int) : Nat :=
  (min (max i 0) ((size : Int) - 1)).toNat

/-- `read_imageui (sourceImage, sampler, coords)`: the pixel at the
clamped coordinates (y = row, x = column). -/
def readPx (img : Image) (y x : Int) : Nat :=
  img.px (clampIdx img.rows y) (clampIdx img.cols x)

/-- One neighbourhood sample of the convolution loop, converted to the
rational accumulator: the pixel at `(row + i, col + j)`. -/
def sample (img : Image) (row col : Nat) (i j : Int) : ℚ :=
  (readPx img ((row : Int) + i) ((col : Int) + j) : ℚ)

/-- The box filter uploaded to `bufferBoxFilter` by `Filter::Filter`:
nine weights, each `0.125f`. -/
def box_filter : List ℚ :=
  [0.125, 0.125, 0.125,
   0.125, 0.125, 0.125,
   0.125, 0.125, 0.125]

/-- The Laplacian filter uploaded to `bufferLaplacianFilter`. -/
def laplacian_filter : List ℚ :=
  [1,  1, 1,
   1, -8, 1,
   1,  1, 1]

/-- The accumulator computed by the `convolution` kernel of kernels.cl
for the work item at `(row, col)`, with `filterWidth = 3` so
`halfwidth = 1`: the doubly nested loop over `i, j` from `-1` to `1` is
unrolled, with `filterIdx` visiting the flat filter array row-major.
All products and sums here are exact in binary32 for 8-bit pixels and
the two coded filters, so ℚ models the float accumulator faithfully. -/
def convolution (flt : List ℚ) (img : Image) (row col : Nat) : ℚ :=
  sample img row col (-1) (-1) * flt.getD 0 0
  + sample img row col (-1) 0 * flt.getD 1 0
  + sample img row col (-1) 1 * flt.getD 2 0
  + sample img row col 0 (-1) * flt.getD 3 0
  + sample img row col 0 0 * flt.getD 4 0
  + sample img row col 0 1 * flt.getD 5 0
  + sample img row col 1 (-1) * flt.getD 6 0
  + sample img row col 1 0 * flt.getD 7 0
  + sample img row col 1 1 * flt.getD 8 0

/-- The write-back `(uint) sum` followed by `write_imageui` into a
`CL_UNSIGNED_INT8` image. The C cast truncates toward zero; a negative
accumulator is undefined behaviour in C and is modelled as 0, and a
value above 255 is out of range for the 8-bit channel and is modelled
as saturating to 255 (for nonnegative accumulators below 256, the model
is exact; the theorems below only ever rely on that exact regime or on
pre-conversion equality of accumulators). -/
def toPixel (q : ℚ) : Nat :=
  min 255 ⌊q⌋.toNat

/-- One full dispatch of the `convolution` kernel over the image: every
in-bounds pixel of the destination image receives the converted
accumulator (the dispatch grid equals the image size, so the in-bounds
guard of the kernel passes for every work item). -/
def convolutionPass (flt : List ℚ) (img : Image) : Image :=
  ⟨img.rows, img.cols, fun r c => toPixel (convolution flt img r c)⟩

/-- Pixel-level semantics of `Filter::convolve`: with smoothing enabled,
two box-blur passes (source → intermediate-1 → intermediate-2) followed
by the Laplacian pass; with smoothing disabled, only the Laplacian
pass applied directly to the source. -/
def convolve (smoothed : Bool) (img : Image) : Image :=
  if smoothed then
    convolutionPass laplacian_filter
      (convolutionPass box_filter (convolutionPass box_filter img))
  else
    convolutionPass laplacian_filter img

/-- Materialize an image as a row-major table, for decidable
comparisons of outputs. -/
def imgTable (img : Image) : List (List Nat) :=
  (List.range img.rows).map fun r => (List.range img.cols).map fun c => img.px r c

/-- Build an image from row-major data (the host-side byte vector). -/
def mkImage (rows cols : Nat) (data : List Nat) : Image :=
  ⟨rows, cols, fun r c => data.getD (r * cols + c) 0⟩

/-- The nine (clamped) samples of the 3×3 neighbourhood of `(r, c)`. -/
def neighborhood (img : Image) (r c : Nat) : List Nat :=
  (List.range 9).map fun k =>
    readPx img ((r : Int) + (k / 3 : Nat) - 1) ((c : Int) + (k % 3 : Nat) - 1)

/-- Whether some in-bounds pixel has a non-constant 3×3 neighbourhood. -/
def hasNonConstantNbhd (img : Image) : Bool :=
  (List.range img.rows).any fun r =>
    (List.range img.cols).any fun c =>
      (neighborhood img r c).any fun v => v ≠ img.px r c

/-- Two images agree as frames: same dimensions and the same pixel value
at every in-bounds coordinate (the off-domain values of the `px`
function are unobservable: the kernels only ever read clamped in-bounds
coordinates and `imgTable` only lists in-bounds pixels). -/
def sameFrame (a b : Image) : Prop :=
  a.rows = b.rows ∧ a.cols = b.cols ∧
    ∀ r < a.rows, ∀ c < a.cols, a.px r c = b.px r c

/-- A non-constant 2×2 frame that is a fixed point of the box-blur pass:
blurring it changes nothing, so Raw and Smoothed convolution coincide
on it. -/
def cexImage : Image := mkImage 2 2 [2, 3, 2, 3]

/-- A 2×2 frame on which Raw and Smoothed convolution differ. -/
def diffImage : Image := mkImage 2 2 [0, 8, 0, 8]

/-- `Filter::toggleSmoothing`: `smoothed = !smoothed; return smoothed` —
the new flag value, which is also the returned value. -/
def toggleSmoothing (smoothed : Bool) : Bool :=
  !smoothed

/-- An interaction with the `Filter` object: a keyboard-driven toggle or
a `convolve` call on a frame. -/
inductive FilterOp where
  | toggle
  | convolveOp (img : Image)

/-- Run a sequence of filter interactions, threading the `smoothed`
flag and collecting the read-back output of every `convolve` call. -/
def runFilter : List FilterOp → Bool → List (List (List Nat))
  | [], _ => []
  | FilterOp.toggle :: ops, s => runFilter ops (toggleSmoothing s)
  | FilterOp.convolveOp img :: ops, s => imgTable (convolve s img) :: runFilter ops s

/-- The value of the `smoothed` flag after a sequence of interactions. -/
def flagAfter : List FilterOp → Bool → Bool
  | [], s => s
  | FilterOp.toggle :: ops, s => flagAfter ops (toggleSmoothing s)
  | FilterOp.convolveOp _ :: ops, s => flagAfter ops s

/-! ## Trace model of the CL calls issued by `Filter::convolve`

The plain (non-interop) variants bind device memory objects to the
`convolution` kernel arguments with `clSetKernelArg` / `setArg` and
submit passes to a single in-order queue.  Device memory objects are
modelled by small numeric handles; an event records the argument
bindings captured at submission time. -/

def gl_win_width : Nat := 640

def gl_win_height : Nat := 480

def bufferSourceImage : Nat := 0

def bufferInterImage1 : Nat := 1

def bufferInterImage2 : Nat := 2

def bufferOutputImage : Nat := 3

def bufferBoxFilter : Nat := 10

def bufferLaplacianFilter : Nat := 11

/-- The mutable bindings of `kernelConv` arguments 0 (source image),
1 (output image) and 4 (filter buffer); `none` means not yet set.
Arguments 2, 3, 5, 6 (dimensions, filter width, sampler) are fixed at
construction and omitted. -/
structure KernelArgs where
  arg0 : Option Nat
  arg1 : Option Nat
  arg4 : Option Nat
deriving DecidableEq

/-- After `Filter::Filter` only the common arguments are set; the
memory-object arguments 0, 1, 4 are still unset. -/
def initialArgs : KernelArgs := ⟨none, none, none⟩

/-- A command submitted to the in-order queue by `Filter::convolve`. -/
inductive CLEvent where
  | enqueueWriteImage (dst w h : Nat)
  | enqueueNDRangeKernel (arg0 arg1 arg4 : Option Nat)
  | enqueueReadImage (src w h : Nat)
deriving DecidableEq

/-- The sequence of CL commands issued by one `Filter::convolve (image)`
call of the plain variants, threading the kernel-argument state.  The
`image` parameter is carried exactly as in the source: it is only ever
used as the host pointer of the fixed-region transfers and is never
inspected (in particular its size is never checked). -/
def convolveCall (smoothed : Bool) (ka : KernelArgs) (image : List Nat) :
    List CLEvent × KernelArgs :=
  let _ := image
  let up := CLEvent.enqueueWriteImage bufferSourceImage gl_win_width gl_win_height
  if smoothed then
    let ka1 := { ka with arg0 := some bufferSourceImage,
                         arg1 := some bufferInterImage1,
                         arg4 := some bufferBoxFilter }
    let d1 := CLEvent.enqueueNDRangeKernel ka1.arg0 ka1.arg1 ka1.arg4
    let ka2 := { ka1 with arg0 := some bufferInterImage1,
                          arg1 := some bufferInterImage2 }
    let d2 := CLEvent.enqueueNDRangeKernel ka2.arg0 ka2.arg1 ka2.arg4
    let ka3 := { ka2 with arg0 := some bufferInterImage2 }
    let ka4 := { ka3 with arg1 := some bufferOutputImage,
                          arg4 := some bufferLaplacianFilter }
    let d3 := CLEvent.enqueueNDRangeKernel ka4.arg0 ka4.arg1 ka4.arg4
    ([up, d1, d2, d3,
      CLEvent.enqueueReadImage bufferOutputImage gl_win_width gl_win_height], ka4)
  else
    let ka1 := { ka with arg0 := some bufferSourceImage }
    let ka2 := { ka1 with arg1 := some bufferOutputImage,
                          arg4 := some bufferLaplacianFilter }
    let d3 := CLEvent.enqueueNDRangeKernel ka2.arg0 ka2.arg1 ka2.arg4
    ([up, d3,
      CLEvent.enqueueReadImage bufferOutputImage gl_win_width gl_win_height], ka2)

/-- Whether a queued command is a kernel dispatch. -/
def isDispatch : CLEvent → Bool
  | CLEvent.enqueueNDRangeKernel _ _ _ => true
  | _ => false

/-! ## Trace model of the GL-texture interop variant

In that variant `bufferInterImage2` is created as
`cl::Image2D (bufferInterImage1)` — the C++ wrapper copy constructor,
which copies (and retains) the underlying `cl_mem` handle, so both
names denote the same device image. -/

def texBufferSourceImage : Nat := 0

def texBufferInterImage1 : Nat := 1

/-- `bufferInterImage2 = cl::Image2D (bufferInterImage1)`: the copy
constructor shares the `cl_mem` handle, so this is the same device
image as `texBufferInterImage1`. -/
def texBufferInterImage2 : Nat := texBufferInterImage1

def texBufferOutputImage : Nat := 2

def texBufferBoxFilter : Nat := 10

def texBufferLaplacianFilter : Nat := 11

/-- A command issued by `Filter::convolve` of the GL-texture variant. -/
inductive TexEvent where
  | enqueueWriteImage (dst w h : Nat)
  | glFinish
  | acquireGLObjects (objs : List Nat)
  | dispatchNormalize (arg0 arg1 : Nat)
  | dispatchConvolution (arg0 arg1 arg4 : Option Nat)
  | releaseGLObjects (objs : List Nat)
  | queueFinish
deriving DecidableEq

/-- The command sequence of one `Filter::convolve (image)` call of the
GL-texture variant: upload, `glFinish`, acquire the shared texture,
normalization pass (arguments fixed at construction: source into
intermediate-1), the two box passes when smoothing is on, the Laplacian
pass (argument 0 set to `bufferInterImage1` unconditionally after the
branch), release, `finish`. -/
def texConvolveCall (smoothed : Bool) (ka : KernelArgs) :
    List TexEvent × KernelArgs :=
  let up := TexEvent.enqueueWriteImage texBufferSourceImage gl_win_width gl_win_height
  let acq := TexEvent.acquireGLObjects [texBufferOutputImage]
  let norm := TexEvent.dispatchNormalize texBufferSourceImage texBufferInterImage1
  let rel := TexEvent.releaseGLObjects [texBufferOutputImage]
  if smoothed then
    let ka1 := { ka with arg0 := some texBufferInterImage1,
                         arg1 := some texBufferInterImage2,
                         arg4 := some texBufferBoxFilter }
    let d1 := TexEvent.dispatchConvolution ka1.arg0 ka1.arg1 ka1.arg4
    let ka2 := { ka1 with arg0 := some texBufferInterImage2,
                          arg1 := some texBufferInterImage1 }
    let d2 := TexEvent.dispatchConvolution ka2.arg0 ka2.arg1 ka2.arg4
    let ka3 := { ka2 with arg0 := some texBufferInterImage1,
                          arg1 := some texBufferOutputImage,
                          arg4 := some texBufferLaplacianFilter }
    let d3 := TexEvent.dispatchConvolution ka3.arg0 ka3.arg1 ka3.arg4
    ([up, TexEvent.glFinish, acq, norm, d1, d2, d3, rel, TexEvent.queueFinish], ka3)
  else
    let ka3 := { ka with arg0 := some texBufferInterImage1,
                         arg1 := some texBufferOutputImage,
                         arg4 := some texBufferLaplacianFilter }
    let d3 := TexEvent.dispatchConvolution ka3.arg0 ka3.arg1 ka3.arg4
    ([up, TexEvent.glFinish, acq, norm, d3, rel, TexEvent.queueFinish], ka3)

/-- Whether a command is a dispatch of the convolution kernel bound to
the box filter. -/
def isBoxDispatch : TexEvent → Bool
  | TexEvent.dispatchConvolution _ _ arg4 => arg4 = some texBufferBoxFilter
  | _ => false

/-! ## The frame mailbox

`MyFreenectDevice` stores the latest frame in `rgbBuffer` next to a
`newRGBFrame` flag, both protected by one mutex.  `VideoCallback`
(producer) overwrites the buffer and sets the flag; the consumer-side
take clears it.  The lock makes each operation atomic, so a run is an
interleaving-free sequence of operations on the state.  Frames are
identified by numeric stamps. -/

structure Mailbox where
  stored : Nat
  fresh : Bool
deriving DecidableEq

/-- Initial state: `newRGBFrame (false)` with a zeroed buffer. -/
def initialMailbox : Mailbox := ⟨0, false⟩

/-- `MyFreenectDevice::VideoCallback`: copy the incoming frame over the
stored one (silently discarding an unconsumed frame) and set the flag. -/
def publish (f : Nat) (m : Mailbox) : Mailbox :=
  let _ := m
  { stored := f, fresh := true }

/-- The mailbox core of `MyFreenectDevice::getRGB`: if no new frame,
fail; otherwise deliver the stored frame and clear the flag. -/
def tryTake (m : Mailbox) : Option Nat × Mailbox :=
  if m.fresh then (some m.stored, { m with fresh := false }) else (none, m)

/-- One operation on the mailbox. -/
inductive MailboxOp where
  | publish (f : Nat)
  | tryTake

/-- The state after a sequence of mailbox operations. -/
def execOps : List MailboxOp → Mailbox → Mailbox
  | [], m => m
  | MailboxOp.publish f :: ops, m => execOps ops (publish f m)
  | MailboxOp.tryTake :: ops, m => execOps ops (tryTake m).2

/-- The frames returned by the successful takes of a run, in order. -/
def outs : List MailboxOp → Mailbox → List Nat
  | [], _ => []
  | MailboxOp.publish f :: ops, m => outs ops (publish f m)
  | MailboxOp.tryTake :: ops, m =>
    match tryTake m with
    | (some x, m2) => x :: outs ops m2
    | (none, m2) => outs ops m2

/-- The frames published by a sequence of operations, in order. -/
def pubs : List MailboxOp → List Nat
  | [] => []
  | MailboxOp.publish f :: ops => f :: pubs ops
  | MailboxOp.tryTake :: ops => pubs ops

/-- The most recently published frame of a sequence, if any. -/
def lastPub : List MailboxOp → Option Nat
  | [] => none
  | MailboxOp.publish f :: ops => some ((lastPub ops).getD f)
  | MailboxOp.tryTake :: ops => lastPub ops

/-- `MyFreenectDevice::getRGB (buffer)` of the display variants, with
the frame-processing step (grayscale conversion plus `convolve`)
abstracted as a function `proc` of the stored frame: when no new frame
is available it returns `false` leaving the caller buffer untouched;
otherwise it overwrites the buffer with the processed frame, clears the
flag and returns `true`. -/
def getRGB (proc : Nat → List Nat) (m : Mailbox) (buffer : List Nat) :
    Bool × Mailbox × List Nat :=
  if m.fresh then (true, ⟨m.stored, false⟩, proc m.stored) else (false, m, buffer)

/-! ## Point-cloud variant kernels -/

/-- The focal length bound to argument 2 of `kernelDepthTo3D` at
construction: `595.f`. -/
def focalLength : ℚ := 595

/-- The point computed by the `depthTo3D` kernel for the work item at
`(gX, gY)` on a `cols × rows` grid with 16-bit depth sample `depth`:
`X = (gX - (cols - 1) / 2) * d / f`, `Y = (gY - (rows - 1) / 2) * d / f`,
`Z = d`, `W = 1`.  The subtraction `cols - 1` is the unsigned integer
subtraction of the kernel (`get_global_size` is at least 1, so it never
wraps); the arithmetic is modelled exactly over ℚ. -/
def depthTo3D (cols rows gX gY depth : Nat) (f : ℚ) : ℚ × ℚ × ℚ × ℚ :=
  let d : ℚ := (depth : ℚ)
  (((gX : ℚ) - ((cols - 1 : Nat) : ℚ) / 2) * d / f,
   ((gY : ℚ) - ((rows - 1 : Nat) : ℚ) / 2) * d / f,
   d, 1)

/-- A 4-channel float pixel of the point-cloud variant buffers. -/
structure RGBA where
  x : ℚ
  y : ℚ
  z : ℚ
  w : ℚ
deriving DecidableEq

/-- The per-pixel computation of the `normalizeRGB` kernel:
`sum = x + y + z; pixel /= sum; pixel.w = 1`.  The kernel divides
unconditionally — it has no guard for `sum = 0`; IEEE division of the
float kernel yields a non-finite value (NaN or infinity) when
`sum = 0`, which the exact model expresses as `none` (a finite,
well-defined result exists exactly when `sum ≠ 0`). -/
def normalizeRGBPixel (p : RGBA) : Option RGBA :=
  let sum := p.x + p.y + p.z
  if sum = 0 then none
  else some ⟨p.x / sum, p.y / sum, p.z / sum, 1⟩

/-- The `normalizeRGB` kernel seen from the work item at `(row, col)`
over a flat row-major buffer: the outer `Option` is the in-bounds write
guard (`none` means the work item writes nothing), the inner is the
finiteness of the divided pixel. -/
def normalizeRGB (rows cols : Nat) (input : Nat → RGBA) (row col : Nat) :
    Option (Option RGBA) :=
  if row < rows && col < cols then
    some (normalizeRGBPixel (input (row * cols + col)))
  else none

/-! ## Helper lemmas about the pixel model -/

theorem clampIdx_lt {size : Nat} (h : 0 < size) (i : Int) : clampIdx size i < size := by
  unfold clampIdx
  omega

theorem sameFrame_trans {a b c : Image} (h1 : sameFrame a b) (h2 : sameFrame b c) :
    sameFrame a c := by
  obtain ⟨hr1, hc1, hp1⟩ := h1
  obtain ⟨hr2, hc2, hp2⟩ := h2
  refine ⟨hr1.trans hr2, hc1.trans hc2, fun r hr c hc => ?_⟩
  rw [hp1 r hr c hc, hp2 r (hr1 ▸ hr) c (hc1 ▸ hc)]

theorem convolution_congr (flt : List ℚ) {a b : Image} (h : sameFrame a b)
    (hr0 : 0 < a.rows) (hc0 : 0 < a.cols) (row col : Nat) :
    convolution flt a row col = convolution flt b row col := by
  obtain ⟨hr, hc, hpx⟩ := h
  have hread : ∀ y x : Int, readPx a y x = readPx b y x := by
    intro y x
    unfold readPx
    rw [← hr, ← hc]
    exact hpx _ (clampIdx_lt hr0 y) _ (clampIdx_lt hc0 x)
  unfold convolution sample
  rw [hread, hread, hread, hread, hread, hread, hread, hread, hread]

theorem convolutionPass_px (flt : List ℚ) (img : Image) (r c : Nat) :
    (convolutionPass flt img).px r c = toPixel (convolution flt img r c) := rfl

theorem convolutionPass_congr (flt : List ℚ) {a b : Image} (h : sameFrame a b)
    (hr0 : 0 < a.rows) (hc0 : 0 < a.cols) :
    sameFrame (convolutionPass flt a) (convolutionPass flt b) := by
  refine ⟨h.1, h.2.1, fun r hr c hc => ?_⟩
  rw [convolutionPass_px, convolutionPass_px, convolution_congr flt h hr0 hc0]

theorem imgTable_congr {a b : Image} (h : sameFrame a b) :
    imgTable a = imgTable b := by
  obtain ⟨hr, hc, hpx⟩ := h
  unfold imgTable
  rw [← hr, ← hc]
  refine List.map_congr_left fun r hrmem => List.map_congr_left fun c hcmem => ?_
  exact hpx r (List.mem_range.mp hrmem) c (List.mem_range.mp hcmem)

theorem imgTable_two_two (a : Image) (h : a.rows = 2) (h2 : a.cols = 2) :
    imgTable a = [[a.px 0 0, a.px 0 1], [a.px 1 0, a.px 1 1]] := by
  unfold imgTable
  rw [h, h2]
  rfl

/-- The non-constant frame `cexImage` is a fixed point of the box-blur
pass: every in-bounds accumulator truncates back to the input pixel. -/
theorem box_fixed_cex : sameFrame (convolutionPass box_filter cexImage) cexImage := by
  refine ⟨rfl, rfl, fun r hr c hc => ?_⟩
  have hr2 : r < 2 := hr
  have hc2 : c < 2 := hc
  interval_cases r <;> interval_cases c <;>
    (rw [convolutionPass_px]
     norm_num [toPixel, convolution, sample, readPx, clampIdx, mkImage, cexImage, box_filter]
     try rfl)

theorem boxbox_cex :
    sameFrame (convolutionPass box_filter (convolutionPass box_filter cexImage)) cexImage :=
  sameFrame_trans
    (convolutionPass_congr box_filter box_fixed_cex (by decide) (by decide))
    box_fixed_cex

theorem box_diff1 :
    sameFrame (convolutionPass box_filter diffImage) (mkImage 2 2 [3, 6, 3, 6]) := by
  refine ⟨rfl, rfl, fun r hr c hc => ?_⟩
  have hr2 : r < 2 := hr
  have hc2 : c < 2 := hc
  interval_cases r <;> interval_cases c <;>
    (rw [convolutionPass_px]
     norm_num [toPixel, convolution, sample, readPx, clampIdx, mkImage, diffImage, box_filter]
     try rfl)

theorem box_diff2 :
    sameFrame (convolutionPass box_filter (mkImage 2 2 [3, 6, 3, 6]))
      (mkImage 2 2 [4, 5, 4, 5]) := by
  refine ⟨rfl, rfl, fun r hr c hc => ?_⟩
  have hr2 : r < 2 := hr
  have hc2 : c < 2 := hc
  interval_cases r <;> interval_cases c <;>
    (rw [convolutionPass_px]
     norm_num [toPixel, convolution, sample, readPx, clampIdx, mkImage, box_filter]
     try rfl)

theorem boxbox_diff :
    sameFrame (convolutionPass box_filter (convolutionPass box_filter diffImage))
      (mkImage 2 2 [4, 5, 4, 5]) :=
  sameFrame_trans
    (convolutionPass_congr box_filter box_diff1 (by decide) (by decide))
    box_diff2

theorem lapTable_diff_raw :
    imgTable (convolutionPass laplacian_filter diffImage) = [[24, 0], [24, 0]] := by
  rw [imgTable_two_two _ rfl rfl]
  simp only [convolutionPass_px]
  norm_num [toPixel, convolution, sample, readPx, clampIdx, mkImage, diffImage,
    laplacian_filter]
  all_goals rfl

theorem lapTable_45 :
    imgTable (convolutionPass laplacian_filter (mkImage 2 2 [4, 5, 4, 5]))
      = [[3, 0], [3, 0]] := by
  rw [imgTable_two_two _ rfl rfl]
  simp only [convolutionPass_px]
  norm_num [toPixel, convolution, sample, readPx, clampIdx, mkImage, laplacian_filter]
  all_goals rfl

theorem conv_one_by_one (flt : List ℚ) (v : Nat) (h : flt.length = 9) :
    convolution flt (mkImage 1 1 [v]) 0 0 = (v : ℚ) * flt.sum := by
  rcases flt with _ | ⟨a0, _ | ⟨a1, _ | ⟨a2, _ | ⟨a3, _ | ⟨a4, _ | ⟨a5, _ | ⟨a6, _ | ⟨a7, _ | ⟨a8, rest⟩⟩⟩⟩⟩⟩⟩⟩⟩ <;>
    simp only [List.length_cons, List.length_nil] at h <;> try omega
  have h0 : rest = [] := List.length_eq_zero.mp (by omega)
  subst h0
  norm_num [convolution, sample, readPx, clampIdx, mkImage]
  ring

/-! ## Claim theorems -/

/-- C3 counterexample: the claim asserts that Raw-mode and Smoothed-mode
`convolve()` produce different outputs for EVERY input frame with at
least one non-constant 3×3 neighbourhood.  The non-constant frame
`cexImage` refutes it: it is a fixed point of the box-blur pass (every
blurred accumulator truncates back to the original pixel), so the
Laplacian pass sees identical input in both modes and the two outputs
coincide — identically, pixel for pixel, already at the level of the
exact pre-conversion accumulators. -/
theorem convolve_modes_coincide_on_blur_fixed_point :
    hasNonConstantNbhd cexImage = true ∧
    imgTable (convolve true cexImage) = imgTable (convolve false cexImage) := by
  refine ⟨by decide, ?_⟩
  have h := imgTable_congr
    (convolutionPass_congr laplacian_filter boxbox_cex (by decide) (by decide))
  simpa [convolve] using h

/-- C3 (amended): Raw and Smoothed `convolve()` differ on some frames
with a non-constant 3×3 neighbourhood (for example `diffImage`) but not
on all of them; `toggleSmoothing()` twice restores the original flag,
and a toggle takes effect only on the next `convolve()` call — the
outputs of calls already performed are unchanged, and an appended
`convolve` uses exactly the flag value current at that call. -/
theorem toggle_smoothing_behavior :
    (hasNonConstantNbhd diffImage = true ∧
      imgTable (convolve true diffImage) ≠ imgTable (convolve false diffImage))
    ∧ (∀ s : Bool, toggleSmoothing (toggleSmoothing s) = s)
    ∧ (∀ (ops : List FilterOp) (s : Bool) (img : Image),
        runFilter (ops ++ [FilterOp.convolveOp img]) s
          = runFilter ops s ++ [imgTable (convolve (flagAfter ops s) img)]) := by
  refine ⟨⟨by decide, ?_⟩, ?_, ?_⟩
  · have h1 : imgTable (convolve true diffImage) = [[3, 0], [3, 0]] := by
      have h := imgTable_congr
        (convolutionPass_congr laplacian_filter boxbox_diff (by decide) (by decide))
      show imgTable (convolutionPass laplacian_filter
        (convolutionPass box_filter (convolutionPass box_filter diffImage))) = _
      rw [h, lapTable_45]
    have h2 : imgTable (convolve false diffImage) = [[24, 0], [24, 0]] := by
      show imgTable (convolutionPass laplacian_filter diffImage) = _
      exact lapTable_diff_raw
    rw [h1, h2]
    decide
  · intro s; cases s <;> rfl
  · intro ops
    induction ops with
    | nil => intro s img; rfl
    | cons op ops ih =>
      intro s img
      cases op with
      | toggle => exact ih (toggleSmoothing s) img
      | convolveOp i => exact congrArg (List.cons (imgTable (convolve s i))) (ih s img)

/-- C4: convolving a 1×1 source image with any 3×3 filter under
clamp-to-edge addressing accumulates `value * (sum of the 9 weights)`
(all nine clamped reads return the single pixel); the Laplacian weights
sum to 0, so the Laplacian output of a 1×1 image is 0 for every pixel
value. -/
theorem one_by_one_convolution :
    (∀ (flt : List ℚ) (v : Nat), flt.length = 9 →
      convolution flt (mkImage 1 1 [v]) 0 0 = (v : ℚ) * flt.sum)
    ∧ laplacian_filter.sum = 0
    ∧ (∀ v : Nat, imgTable (convolutionPass laplacian_filter (mkImage 1 1 [v])) = [[0]]) := by
  have hlap : laplacian_filter.sum = 0 := by norm_num [laplacian_filter]
  refine ⟨conv_one_by_one, hlap, fun v => ?_⟩
  have hconv : convolution laplacian_filter (mkImage 1 1 [v]) 0 0 = 0 := by
    rw [conv_one_by_one laplacian_filter v (by norm_num [laplacian_filter]), hlap, mul_zero]
  have : imgTable (convolutionPass laplacian_filter (mkImage 1 1 [v]))
      = [[(convolutionPass laplacian_filter (mkImage 1 1 [v])).px 0 0]] := rfl
  rw [this, convolutionPass_px, hconv]
  rfl

/-- C4 witness: the general 1×1 lemma applied to the box filter and
pixel value 8. -/
theorem one_by_one_convolution_witness :
    convolution box_filter (mkImage 1 1 [8]) 0 0 = (8 : ℚ) * box_filter.sum :=
  one_by_one_convolution.1 box_filter 8 (by norm_num [box_filter])

/-- C5: the box-blur coefficients uploaded to `bufferBoxFilter` are nine
weights of `0.125` each; their sum is exactly `9/8 = 1.125`, not 1, so
the blur is unnormalized — it brightens its input (a constant 1×1 image
of value 8 blurs to 9). -/
theorem box_filter_weights :
    box_filter = List.replicate 9 (0.125 : ℚ)
    ∧ box_filter.sum = 9 / 8
    ∧ (9 / 8 : ℚ) = 1.125
    ∧ box_filter.sum ≠ 1
    ∧ imgTable (convolutionPass box_filter (mkImage 1 1 [8])) = [[9]] := by
  refine ⟨by norm_num [box_filter, List.replicate], by norm_num [box_filter],
    by norm_num, by norm_num [box_filter], ?_⟩
  have hconv : convolution box_filter (mkImage 1 1 [8]) 0 0 = 9 := by
    rw [conv_one_by_one box_filter 8 (by norm_num [box_filter])]
    norm_num [box_filter]
  have : imgTable (convolutionPass box_filter (mkImage 1 1 [8]))
      = [[(convolutionPass box_filter (mkImage 1 1 [8])).px 0 0]] := rfl
  rw [this, convolutionPass_px, hconv]
  rfl

/-- C1: a `Filter::convolve` call first uploads the frame into the
source image and then, with smoothing enabled, dispatches in submission
order exactly three convolution passes — box blur reading the source
and writing intermediate-1, box blur reading intermediate-1 and writing
intermediate-2, Laplacian reading intermediate-2 and writing the output
image — before the blocking read-back; with smoothing disabled it
dispatches only the Laplacian pass reading the source directly.  The
edge-detection pass is performed in both modes, and the trace is the
same whatever argument bindings were left over from earlier calls. -/
theorem convolve_pass_order :
    ∀ (ka : KernelArgs) (image : List Nat),
      (convolveCall true ka image).1 =
        [CLEvent.enqueueWriteImage bufferSourceImage gl_win_width gl_win_height,
         CLEvent.enqueueNDRangeKernel (some bufferSourceImage) (some bufferInterImage1)
           (some bufferBoxFilter),
         CLEvent.enqueueNDRangeKernel (some bufferInterImage1) (some bufferInterImage2)
           (some bufferBoxFilter),
         CLEvent.enqueueNDRangeKernel (some bufferInterImage2) (some bufferOutputImage)
           (some bufferLaplacianFilter),
         CLEvent.enqueueReadImage bufferOutputImage gl_win_width gl_win_height]
      ∧ (convolveCall false ka image).1 =
        [CLEvent.enqueueWriteImage bufferSourceImage gl_win_width gl_win_height,
         CLEvent.enqueueNDRangeKernel (some bufferSourceImage) (some bufferOutputImage)
           (some bufferLaplacianFilter),
         CLEvent.enqueueReadImage bufferOutputImage gl_win_width gl_win_height] :=
  fun _ _ => ⟨rfl, rfl⟩

/-- C6 counterexample: the claim asserts that a frame whose size is not
640×480 is rejected by `convolve()`.  It is not: a one-element frame is
processed exactly like a full 640×480 frame — same upload of the fixed
region, same three dispatches, no rejection path of any kind. -/
theorem convolve_no_size_check_cex :
    ([0] : List Nat).length ≠ gl_win_width * gl_win_height
    ∧ convolveCall true initialArgs [0]
        = convolveCall true initialArgs (List.replicate (gl_win_width * gl_win_height) 0)
    ∧ ((convolveCall true initialArgs [0]).1.filter isDispatch).length = 3 :=
  ⟨by decide, rfl, by decide⟩

/-- C6 (amended): `convolve()` performs no size validation at all — its
behaviour is independent of the frame argument, every call transfers
the fixed 640×480 region, so a mismatched frame is silently misread
(the §3 contract violation) rather than detected. -/
theorem convolve_no_size_check :
    ∀ (s : Bool) (ka : KernelArgs) (image : List Nat),
      convolveCall s ka image
        = convolveCall s ka (List.replicate (gl_win_width * gl_win_height) 0)
      ∧ (convolveCall s ka image).1.head?
        = some (CLEvent.enqueueWriteImage bufferSourceImage gl_win_width gl_win_height) := by
  intro s ka image
  cases s <;> exact ⟨rfl, rfl⟩

/-- C9: in the GL-texture interop variant `bufferInterImage2` is a copy
of `bufferInterImage1`, hence the very same device image; with
smoothing enabled both box-blur dispatches therefore read from and
write to one and the same image instead of ping-ponging between two
distinct intermediates. -/
theorem tex_intermediate_alias :
    texBufferInterImage2 = texBufferInterImage1
    ∧ (∀ ka : KernelArgs,
        (texConvolveCall true ka).1 =
          [TexEvent.enqueueWriteImage texBufferSourceImage gl_win_width gl_win_height,
           TexEvent.glFinish,
           TexEvent.acquireGLObjects [texBufferOutputImage],
           TexEvent.dispatchNormalize texBufferSourceImage texBufferInterImage1,
           TexEvent.dispatchConvolution (some texBufferInterImage1)
             (some texBufferInterImage1) (some texBufferBoxFilter),
           TexEvent.dispatchConvolution (some texBufferInterImage1)
             (some texBufferInterImage1) (some texBufferBoxFilter),
           TexEvent.dispatchConvolution (some texBufferInterImage1)
             (some texBufferOutputImage) (some texBufferLaplacianFilter),
           TexEvent.releaseGLObjects [texBufferOutputImage],
           TexEvent.queueFinish])
    ∧ (∀ ka : KernelArgs,
        (texConvolveCall true ka).1.filter isBoxDispatch =
          [TexEvent.dispatchConvolution (some texBufferInterImage1)
             (some texBufferInterImage1) (some texBufferBoxFilter),
           TexEvent.dispatchConvolution (some texBufferInterImage1)
             (some texBufferInterImage1) (some texBufferBoxFilter)]) :=
  ⟨rfl, fun _ => rfl, fun _ => rfl⟩

theorem tryTake_snd_fresh (m : Mailbox) : (tryTake m).2.fresh = false := by
  cases hm : m.fresh <;> simp [tryTake, hm]

theorem exec_fresh_lastPub :
    ∀ (ops : List MailboxOp) (m : Mailbox),
      (execOps ops m).fresh = true →
      lastPub ops = some (execOps ops m).stored ∨
        (lastPub ops = none ∧ m.fresh = true ∧ (execOps ops m).stored = m.stored) := by
  intro ops
  induction ops with
  | nil => exact fun m h => Or.inr ⟨rfl, h, rfl⟩
  | cons op ops ih =>
    intro m h
    cases op with
    | publish f =>
      rcases ih (publish f m) h with h2 | ⟨hnone, _, hstored⟩
      · left
        show some ((lastPub ops).getD f) = _
        rw [h2]
        rfl
      · left
        show some ((lastPub ops).getD f) = some (execOps ops (publish f m)).stored
        rw [hnone, hstored]
        rfl
    | tryTake =>
      rcases ih (tryTake m).2 h with h2 | ⟨_, hfresh2, _⟩
      · exact Or.inl h2
      · rw [tryTake_snd_fresh m] at hfresh2
        exact absurd hfresh2 (by decide)

theorem outs_mem :
    ∀ (ops : List MailboxOp) (m : Mailbox) (x : Nat),
      x ∈ outs ops m → (m.fresh = true ∧ x = m.stored) ∨ x ∈ pubs ops := by
  intro ops
  induction ops with
  | nil => intro m x hx; exact absurd hx (by simp [outs])
  | cons op ops ih =>
    intro m x hx
    cases op with
    | publish f =>
      rcases ih (publish f m) x hx with ⟨_, hx2⟩ | hx2
      · exact Or.inr (by simp [pubs, hx2, publish])
      · exact Or.inr (List.mem_cons_of_mem f hx2)
    | tryTake =>
      cases hm : m.fresh with
      | true =>
        have hx2 : x ∈ m.stored :: outs ops { m with fresh := false } := by
          simpa [outs, tryTake, hm] using hx
        rcases List.mem_cons.mp hx2 with rfl | hx3
        · exact Or.inl ⟨rfl, rfl⟩
        · rcases ih _ x hx3 with ⟨hfr, _⟩ | hx4
          · exact absurd hfr (by simp)
          · exact Or.inr hx4
      | false =>
        have hx2 : x ∈ outs ops m := by simpa [outs, tryTake, hm] using hx
        rcases ih m x hx2 with ⟨hfr, _⟩ | hx3
        · exact absurd hfr (by simp [hm])
        · exact Or.inr hx3

theorem outs_chain :
    ∀ (ops : List MailboxOp) (m : Mailbox),
      List.Pairwise (· < ·) (pubs ops) →
      (m.fresh = true → ∀ p ∈ pubs ops, m.stored < p) →
      List.Chain' (· < ·) (outs ops m) := by
  intro ops
  induction ops with
  | nil => intro m _ _; simp [outs]
  | cons op ops ih =>
    intro m hpair hbound
    cases op with
    | publish f =>
      have hpair2 : List.Pairwise (· < ·) (pubs ops) := (List.pairwise_cons.mp hpair).2
      have hf : ∀ p ∈ pubs ops, f < p := (List.pairwise_cons.mp hpair).1
      show List.Chain' (· < ·) (outs ops (publish f m))
      exact ih (publish f m) hpair2 (fun _ p hp => hf p hp)
    | tryTake =>
      cases hm : m.fresh with
      | true =>
        have houts : outs (MailboxOp.tryTake :: ops) m
            = m.stored :: outs ops { m with fresh := false } := by
          simp [outs, tryTake, hm]
        rw [houts]
        refine List.chain'_cons'.mpr ⟨?_, ?_⟩
        · intro y hy
          have hy2 : y ∈ outs ops { m with fresh := false } :=
            List.mem_of_mem_head? hy
          rcases outs_mem ops _ y hy2 with ⟨hfr, _⟩ | hy3
          · exact absurd hfr (by simp)
          · exact hbound hm y hy3
        · exact ih _ hpair (fun hfr => absurd hfr (by simp))
      | false =>
        have houts : outs (MailboxOp.tryTake :: ops) m = outs ops m := by
          simp [outs, tryTake, hm]
        rw [houts]
        exact ih m hpair (fun hfr => absurd hfr (by simp [hm]))

/-- C2: for every interleaving of publishes (`VideoCallback`) and takes
(`getRGB`) on one mailbox starting from the fresh-free initial state, a
successful take at the end of the run returns exactly the most recently
published frame; when the published stamps increase along the run, the
stamps returned by the successful takes are strictly increasing — no
take ever returns a frame older than (or equal to) the previous one it
returned; and a publish from ANY state overwrites the stored frame and
raises the flag, discarding an unconsumed frame silently — the state
holds at most one pending frame. -/
theorem mailbox_protocol :
    (∀ (ops : List MailboxOp) (x : Nat),
      (tryTake (execOps ops initialMailbox)).1 = some x → lastPub ops = some x)
    ∧ (∀ ops : List MailboxOp,
      List.Pairwise (· < ·) (pubs ops) →
      List.Chain' (· < ·) (outs ops initialMailbox))
    ∧ (∀ (m : Mailbox) (f : Nat),
      publish f m = { stored := f, fresh := true }) := by
  refine ⟨?_, ?_, fun m f => rfl⟩
  · intro ops x h
    cases hfr : (execOps ops initialMailbox).fresh with
    | false => simp [tryTake, hfr] at h
    | true =>
      have hx : x = (execOps ops initialMailbox).stored := by
        simp [tryTake, hfr] at h
        exact h.symm
      subst hx
      rcases exec_fresh_lastPub ops initialMailbox hfr with h2 | ⟨_, hfresh0, _⟩
      · exact h2
      · exact absurd hfresh0 (by decide)
  · intro ops hpair
    exact outs_chain ops initialMailbox hpair (fun hfr => absurd hfr (by decide))

/-- C2 witness: a concrete run — after publishing stamps 3 then 5, a
take returns 5, the latest; and the outputs of an interleaved run form
a strictly increasing sequence. -/
theorem mailbox_protocol_witness :
    lastPub [MailboxOp.publish 3, MailboxOp.publish 5] = some 5
    ∧ List.Chain' (· < ·)
        (outs [MailboxOp.publish 3, MailboxOp.tryTake, MailboxOp.publish 5,
          MailboxOp.tryTake] initialMailbox) :=
  ⟨mailbox_protocol.1 [MailboxOp.publish 3, MailboxOp.publish 5] 5 (by decide),
   mailbox_protocol.2.1 [MailboxOp.publish 3, MailboxOp.tryTake, MailboxOp.publish 5,
     MailboxOp.tryTake] (by decide)⟩

/-- C8: a `getRGB` call finding no new frame returns `false` and leaves
the caller buffer untouched (and the state unchanged); in particular,
immediately after any `getRGB` call — successful or not — a second call
with no intervening publish returns `false` with the new buffer
untouched, for every processing function. -/
theorem getRGB_no_new_frame :
    (∀ (proc : Nat → List Nat) (m : Mailbox) (buffer : List Nat),
      m.fresh = false → getRGB proc m buffer = (false, m, buffer))
    ∧ (∀ (proc : Nat → List Nat) (m : Mailbox) (buf1 buf2 : List Nat),
      getRGB proc (getRGB proc m buf1).2.1 buf2
        = (false, (getRGB proc m buf1).2.1, buf2)) := by
  constructor
  · intro proc m buffer h
    simp [getRGB, h]
  · intro proc m buf1 buf2
    cases hm : m.fresh <;> simp [getRGB, hm]

/-- C8 witness: on the initial (no-frame) state, `getRGB` fails and the
buffer `[7]` comes back untouched. -/
theorem getRGB_no_new_frame_witness :
    getRGB (fun _ => []) initialMailbox [7] = (false, initialMailbox, [7]) :=
  getRGB_no_new_frame.1 (fun _ => []) initialMailbox [7] rfl

/-- C7: the `depthTo3D` kernel computes the pinhole projection
`X = (x - cx) * d / f`, `Y = (y - cy) * d / f`, `Z = d` (with `W = 1`)
where `cx = (cols - 1) / 2`, `cy = (rows - 1) / 2` and `f = 595` as
bound at construction; on the 640×480 grid at pixel (319, 239) with
depth 1000 this gives `X = Y = -0.5 * 1000 / 595 = -100/119 ≈ -0.84`
(within 0.01 of -0.84) and `Z = 1000`. -/
theorem depthTo3D_pinhole :
    (∀ cols rows gX gY depth : Nat, 1 ≤ cols → 1 ≤ rows →
      depthTo3D cols rows gX gY depth focalLength
        = (((gX : ℚ) - ((cols : ℚ) - 1) / 2) * (depth : ℚ) / 595,
           ((gY : ℚ) - ((rows : ℚ) - 1) / 2) * (depth : ℚ) / 595,
           (depth : ℚ), 1))
    ∧ depthTo3D 640 480 319 239 1000 focalLength = (-100 / 119, -100 / 119, 1000, 1)
    ∧ |(-100 / 119 : ℚ) - (-84 / 100)| < 1 / 100 := by
  refine ⟨?_, ?_, by rw [abs_lt]; constructor <;> norm_num⟩
  · intro cols rows gX gY depth h1 h2
    unfold depthTo3D focalLength
    rw [Nat.cast_sub h1, Nat.cast_sub h2, Nat.cast_one]
  · unfold depthTo3D focalLength
    norm_num

/-- C7 witness: the pinhole formula applied at a concrete grid and
depth. -/
theorem depthTo3D_pinhole_witness :
    depthTo3D 640 480 0 0 5 focalLength
      = (((0 : ℚ) - ((640 : ℚ) - 1) / 2) * (5 : ℚ) / 595,
         ((0 : ℚ) - ((480 : ℚ) - 1) / 2) * (5 : ℚ) / 595,
         (5 : ℚ), 1) :=
  depthTo3D_pinhole.1 640 480 0 0 5 (by norm_num) (by norm_num)

/-- C10: every in-bounds output pixel of `normalizeRGB` is the input
pixel divided componentwise by `s = x + y + z` with the alpha channel
forced to 1, the division being performed for every in-bounds pixel
with no guard on `s`; the result is finite (`some`) exactly under the
precondition `s ≠ 0`, and for an all-black pixel (`s = 0`) the IEEE
division produces a non-finite value, modelled as `none`. -/
theorem normalizeRGB_unguarded_division :
    (∀ (rows cols : Nat) (input : Nat → RGBA) (row col : Nat),
      row < rows → col < cols →
      normalizeRGB rows cols input row col
        = some (normalizeRGBPixel (input (row * cols + col))))
    ∧ (∀ p : RGBA, p.x + p.y + p.z ≠ 0 →
      normalizeRGBPixel p
        = some ⟨p.x / (p.x + p.y + p.z), p.y / (p.x + p.y + p.z),
            p.z / (p.x + p.y + p.z), 1⟩)
    ∧ (∀ w : ℚ, normalizeRGBPixel ⟨0, 0, 0, w⟩ = none) := by
  refine ⟨?_, ?_, ?_⟩
  · intro rows cols input row col h1 h2
    simp [normalizeRGB, h1, h2]
  · intro p h
    simp [normalizeRGBPixel, h]
  · intro w
    norm_num [normalizeRGBPixel]

/-- C10 witness: the division applied to a concrete in-bounds pixel
with nonzero channel sum, and to a black pixel. -/
theorem normalizeRGB_unguarded_division_witness :
    normalizeRGB 2 2 (fun _ => ⟨1, 1, 2, 0⟩) 1 1 = some (normalizeRGBPixel ⟨1, 1, 2, 0⟩)
    ∧ normalizeRGBPixel ⟨1, 1, 2, 0⟩
      = some ⟨1 / (1 + 1 + 2), 1 / (1 + 1 + 2), 2 / (1 + 1 + 2), 1⟩
    ∧ normalizeRGBPixel ⟨0, 0, 0, 5⟩ = none :=
  ⟨normalizeRGB_unguarded_division.1 2 2 (fun _ => ⟨1, 1, 2, 0⟩) 1 1 (by norm_num) (by norm_num),
   normalizeRGB_unguarded_division.2.1 ⟨1, 1, 2, 0⟩ (by norm_num),
   normalizeRGB_unguarded_division.2.2 5⟩
